import Mathlib

/-!
# Verification of the Business Email & Social Media Extractor pipeline

A shallow embedding of `business_email_extractor.py` (the v2 pipeline of the
repository).  Python strings are modelled as Lean `String` (a structure over
`List Char`); string manipulation is carried out on the underlying character
lists.  The network is modelled as an explicit oracle `fetch : String →
Option String` passed to the aggregation functions; `None` models a failed
request (`fetch_page_content` returning `None`).

Caveats of the embedding, recorded once here:
* Python `str.strip` removes a slightly larger set of Unicode whitespace
  characters than `Char.isWhitespace` (space, tab, LF, CR); no claim depends
  on the exotic ones.
* Python `str.lower` performs full Unicode lowercasing; `Char.toLower`
  handles the ASCII range, which is all the email/URL material in scope.
* `pd.isna(url)` is `False` for every actual `str`, so the NaN branch of
  `normalize_url` is unreachable in a `String` embedding and is not modelled.
* A Python `set` iterates in an unspecified order; the accumulated email set
  is modelled as a first-insertion-ordered duplicate-free list.  None of the
  verified claims depends on that order.
-/

/-! ## Character-level helpers (Python string primitives) -/

/-- Model of the whitespace class used by Python's `str.strip`
(ASCII fragment). -/
def pyIsSpace (c : Char) : Bool := c.isWhitespace

/-- Model of Python `s.strip()`: drop leading and trailing whitespace. -/
def pyStripL (cs : List Char) : List Char :=
  ((cs.dropWhile pyIsSpace).reverse.dropWhile pyIsSpace).reverse

/-- Model of Python `s.rstrip('/')`: drop every trailing `'/'`. -/
def rstripSlashesL (cs : List Char) : List Char :=
  (cs.reverse.dropWhile (fun c => c == '/')).reverse

/-- Model of Python `s.lower()` (ASCII fragment). -/
def pyLowerL (cs : List Char) : List Char := cs.map Char.toLower

/-- Model of Python `email.strip().lower()` used by `clean_emails`. -/
def pyStripLower (s : String) : String := ⟨pyLowerL (pyStripL s.data)⟩

/-! ## Email cleaning (`BusinessContactExtractor.clean_emails`) -/

/-- The file extensions of the exclusion regex
`\.(png|jpg|jpeg|gif|svg|pdf|html?|css|js|ico|mp4|mp3|zip|doc|docx)$`
(`html?` contributes both `htm` and `html`). -/
def excludedExtensions : List String :=
  ["png", "jpg", "jpeg", "gif", "svg", "pdf", "htm", "html",
   "css", "js", "ico", "mp4", "mp3", "zip", "doc", "docx"]

/-- Model of `re.search(file_extensions, email)`: the anchored alternation matches
exactly when the (already stripped) string ends in a dot followed by one of
the excluded extensions. -/
def hasExcludedExtension (email : String) : Bool :=
  excludedExtensions.any (fun ext => ("." ++ ext).data.isSuffixOf email.data)

/-- The alternatives of the placeholder regex
`(xxx@xxx\.com|your@email\.com|test\.com|test@.*|example@.*|no-reply@.*|noreply@.*)`.
`re.match` anchors at the start only, so each alternative is a prefix test
(a trailing `.*` changes nothing). -/
def placeholderPrefixes : List String :=
  ["xxx@xxx.com", "your@email.com", "test.com", "test@", "example@",
   "no-reply@", "noreply@"]

/-- Model of `re.match(test_patterns, email)`: prefix match against the alternation. -/
def matchesPlaceholder (email : String) : Bool :=
  placeholderPrefixes.any (fun p => p.data.isPrefixOf email.data)

/-- The `for email in emails` loop of `clean_emails`, with the accumulated
`clean` list made explicit.  Mirrors the Python control flow: strip+lower,
skip empty / excluded-extension / placeholder candidates, skip duplicates,
and stop as soon as two clean emails have been collected. -/
def cleanEmailsLoop : List String → List String → List String
  | [], clean => clean
  | e :: rest, clean =>
    let email := pyStripLower e
    if email = "" then
      cleanEmailsLoop rest clean
    else if hasExcludedExtension email then
      cleanEmailsLoop rest clean
    else if matchesPlaceholder email then
      cleanEmailsLoop rest clean
    else
      let clean' := if email ∈ clean then clean else clean ++ [email]
      if 2 ≤ clean'.length then clean' else cleanEmailsLoop rest clean'

/-- Embedding of `BusinessContactExtractor.clean_emails`. -/
def clean_emails (emails : List String) : List String :=
  cleanEmailsLoop emails []

/-! ## URL normalization (`BusinessContactExtractor.normalize_url`)

`urlparse` is modelled by the netloc computation of `urllib.parse.urlsplit`
(CPython 3.11): strip leading C0-control/space characters, remove tab/CR/LF,
split off a syntactically valid scheme before the first `':'`, and read the
authority after a leading `"//"` up to the first `'/'`, `'?'` or `'#'`.
`urlsplit` raises `ValueError` on a netloc with an unbalanced bracket or
with an invalid bracketed (IPv6/IPvFuture) host; the source catches this in
its `try`/`except` and returns `None`, so the netloc model is
`Option`-valued and `normalize_url` maps the raising case to `none`. -/

/-- The set `scheme_chars` of `urllib.parse`: ASCII letters, digits, `+`, `-`, `.`. -/
def isSchemeChar (c : Char) : Bool :=
  c.isAlpha || c.isDigit || c == '+' || c == '-' || c == '.'

/-- The scheme split of `urlsplit`: if the text before the first `':'` is a
nonempty run of scheme characters starting with an ASCII letter, return the
scheme and the remainder after the colon. -/
def splitScheme (cs : List Char) : Option (List Char × List Char) :=
  match cs.findIdx? (fun c => c == ':') with
  | none => none
  | some i =>
    if 0 < i ∧ (cs.take i).all isSchemeChar ∧ (cs.headD ' ').isAlpha then
      some (cs.take i, cs.drop (i + 1))
    else none

/-- The WHATWG preprocessing of `urlsplit`: strip leading C0-control/space
characters, then delete every tab, CR and LF. -/
def urlsplitClean (cs : List Char) : List Char :=
  (cs.dropWhile (fun c => c.toNat ≤ 32)).filter
    (fun c => !(c == '\t' || c == '\r' || c == '\n'))

/-- Model of an ASCII hexadecimal digit (the set `_HEX_DIGITS` of
`ipaddress`). -/
def isHexDigitA (c : Char) : Bool :=
  c.isDigit || ('a' ≤ c && c ≤ 'f') || ('A' ≤ c && c ≤ 'F')

/-- Numeric value of an ASCII decimal-digit string. -/
def digitsVal (s : List Char) : Nat :=
  s.foldl (fun n c => n * 10 + (c.toNat - 48)) 0

/-- Model of `ipaddress._parse_octet` (CPython 3.11): nonempty, ASCII
digits only, at most 3 characters, no leading zero except `"0"` itself,
value at most 255. -/
def validOctet (s : List Char) : Bool :=
  !s.isEmpty && s.all Char.isDigit && decide (s.length ≤ 3) &&
  (s == ['0'] || !(s.headD '0' == '0')) &&
  decide (digitsVal s ≤ 255)

/-- Model of parsing a string as `ipaddress.IPv4Address`: no `'/'`,
nonempty, and exactly four valid dot-separated octets. -/
def validIPv4 (s : List Char) : Bool :=
  !(s.contains '/') && !s.isEmpty &&
  (let octets := s.splitOn '.'
   octets.length == 4 && octets.all validOctet)

/-- Model of `ipaddress._parse_hextet`: hexadecimal digits only, at most 4
of them; the empty string is rejected (by `int('', 16)`). -/
def validHextet (s : List Char) : Bool :=
  !s.isEmpty && s.all isHexDigitA && decide (s.length ≤ 4)

/-- Model of the part-structure checks of
`ipaddress._BaseV6._ip_int_from_string` after the optional IPv4-suffix
expansion: at most 9 colon-separated parts, at most one interior empty
part (the `'::'` skip), a leading (resp. trailing) empty part only when
the skip is directly at that end, at least one skipped group, and valid
hextets at all used positions. -/
def checkHextetParts (parts : List (List Char)) : Bool :=
  decide (parts.length ≤ 9) &&
  (let n := parts.length
   let interior := (parts.drop 1).dropLast
   let k := interior.countP (fun p => p.isEmpty)
   if 2 ≤ k then false
   else if k == 1 then
     let si := 1 + interior.findIdx (fun p => p.isEmpty)
     let hE := (parts.headD [' ']).isEmpty
     let lE := (parts.getLastD [' ']).isEmpty
     let pHi := if hE then si - 1 else si
     let pLo := if lE then n - si - 2 else n - si - 1
     (!hE || si == 1) && (!lE || si == n - 2) &&
     decide (pHi + pLo ≤ 7) &&
     (parts.take pHi).all validHextet &&
     (parts.drop (n - pLo)).all validHextet
   else
     parts.length == 8 && !(parts.headD [' ']).isEmpty &&
     !(parts.getLastD [' ']).isEmpty && parts.all validHextet)

/-- Model of `ipaddress._BaseV6._ip_int_from_string` without a scope id:
nonempty, at least three colon-separated parts; a last part containing a
`'.'` must parse as an IPv4 address and is replaced by two (nonempty,
valid) hextets; then the part-structure checks run on the expanded list. -/
def validIPv6NoScope (s : List Char) : Bool :=
  !s.isEmpty &&
  (let parts := s.splitOn ':'
   decide (3 ≤ parts.length) &&
   (let lastP := parts.getLastD []
    if lastP.contains '.' then
      validIPv4 lastP && checkHextetParts (parts.dropLast ++ [['0'], ['0']])
    else
      checkHextetParts parts))

/-- Model of parsing a string as `ipaddress.IPv6Address`: no `'/'`; an
optional scope id split at the first `'%'` (the scope must be nonempty and
contain no further `'%'`); then the scopeless parse. -/
def validIPv6 (s : List Char) : Bool :=
  !(s.contains '/') &&
  (match s.findIdx? (fun c => c == '%') with
   | none => validIPv6NoScope s
   | some i =>
     let scope := s.drop (i + 1)
     !scope.isEmpty && !(scope.contains '%') && validIPv6NoScope (s.take i))

/-- Model of `urllib.parse._check_bracketed_host` (CPython 3.11): a host
starting with `'v'` must match the IPvFuture pattern
`\Av[a-fA-F0-9]+\..+\Z` (the greedy hex run needs no backtracking since
`'.'` is not a hex digit, and `.+` must cover the nonempty newline-free
tail); any other host must parse with `ipaddress.ip_address` as an IPv6
address — parsing as IPv4 raises ("cannot be in brackets"), as does
anything that parses as neither. -/
def checkBracketedHost (host : List Char) : Bool :=
  match host with
  | 'v' :: rest =>
    let hexrun := rest.takeWhile isHexDigitA
    !hexrun.isEmpty &&
    (match rest.drop hexrun.length with
     | '.' :: tail => !tail.isEmpty && tail.all (fun c => !(c == '\n'))
     | _ => false)
  | _ => !(validIPv4 host) && validIPv6 host

/-- Model of the netloc computation of `urllib.parse.urlsplit` (CPython
3.11) including its `ValueError` paths: after the WHATWG preprocessing and
the scheme split, the netloc is the text between a leading `"//"` and the
first `'/'`, `'?'` or `'#'`; `urlsplit` raises (`none` here) when the
netloc has a bracket of one kind without the other, or when the text
between its first `'['` and the following `']'` fails
`_check_bracketed_host`.  The one remaining raise path, `_checknetloc`'s
NFKC check, fires only for non-ASCII netlocs whose normalization
introduces a separator and is not modelled: the model is faithful on
ASCII inputs. -/
def urlparseNetloc (cs : List Char) : Option (List Char) :=
  let cs := urlsplitClean cs
  let rest := match splitScheme cs with
    | some (_, r) => r
    | none => cs
  match rest with
  | '/' :: '/' :: r =>
    let netloc := r.takeWhile (fun c => !(c == '/' || c == '?' || c == '#'))
    let hasL := netloc.contains '['
    let hasR := netloc.contains ']'
    if hasL != hasR then none
    else if hasL then
      let host := ((netloc.dropWhile (fun c => !(c == '['))).drop 1).takeWhile
        (fun c => !(c == ']'))
      if checkBracketedHost host then some netloc else none
    else some netloc
  | _ => some []

/-- The gate of `normalize_url`'s `try` block: `urlparse(url)` did not
raise and `parsed.netloc` is truthy.  Both the `except` branch and the
empty-netloc branch of the source return `None`. -/
def netlocValid (cs : List Char) : Bool :=
  match urlparseNetloc cs with
  | none => false
  | some nl => !nl.isEmpty

/-- Embedding of `BusinessContactExtractor.normalize_url`. -/
def normalize_url (url : String) : Option String :=
  let t := pyStripL url.data
  if t.isEmpty then none
  else
    let u := rstripSlashesL t
    let u := if "http".data.isPrefixOf u then u else "http://".data ++ u
    if netlocValid u then some ⟨u⟩ else none

/-! ## Extraction (`extract_emails_from_html`, `extract_social_links`)

Both are regex scans; they are modelled by direct implementations of the
specific patterns' leftmost-match semantics, argued case by case in the
comments (no general regex engine is needed: neither pattern requires
backtracking beyond the domain/TLD split handled in `tryDomainSplit`). -/

/-- The class `\w` of Python `re` (ASCII fragment), used by the `\b` assertions. -/
def isWordChar (c : Char) : Bool := c.isAlphanum || c == '_'

/-- The class `[a-zA-Z0-9._%+-]` (local part of the email pattern). -/
def isEmailLocalChar (c : Char) : Bool :=
  c.isAlphanum || c == '.' || c == '_' || c == '%' || c == '+' || c == '-'

/-- The class `[a-zA-Z0-9.-]` (domain part of the email pattern). -/
def isEmailDomainChar (c : Char) : Bool :=
  c.isAlphanum || c == '.' || c == '-'

/-- The trailing `\b` after `[a-zA-Z]{2,}`: the previous character is a
letter, so the boundary holds exactly when the next character is absent or
not a word character. -/
def wordBoundaryAfter (cs : List Char) : Bool :=
  match cs with
  | [] => true
  | c :: _ => !isWordChar c

/-- Backtracking of `[a-zA-Z0-9.-]+\.[a-zA-Z]{2,}\b` after the `'@'`:
`k` counts down the candidate lengths of the `+`-run (regex tries the
longest first).  For each `k` the literal `'.'` must follow, then at least
two letters; because shrinking the letter run always places the boundary
between two letters, only the maximal letter run can satisfy the final
`\b`.  Returns the number of characters matched after the `'@'`. -/
def tryDomainSplit (r2 : List Char) : Nat → Option Nat
  | 0 => none
  | k + 1 =>
    match r2.drop (k + 1) with
    | '.' :: r3 =>
      let l := (r3.takeWhile Char.isAlpha).length
      if 2 ≤ l ∧ wordBoundaryAfter (r3.drop l) then
        some ((k + 1) + 1 + l)
      else tryDomainSplit r2 k
    | _ => tryDomainSplit r2 k

/-- One attempt of `\b[a-zA-Z0-9._%+-]+@[a-zA-Z0-9.-]+\.[a-zA-Z]{2,}\b` at
the start of `cs`, where `prevIsWord` tells whether the character before
`cs` is a word character (`\b` holds iff the two sides differ).  The local
class excludes `'@'`, so the greedy `+` needs no backtracking there.
Returns the matched text and the remainder. -/
def matchEmailAt (prevIsWord : Bool) (cs : List Char) : Option (List Char × List Char) :=
  match cs with
  | [] => none
  | c :: _ =>
    if prevIsWord == isWordChar c then none
    else
      let a := cs.takeWhile isEmailLocalChar
      if a.isEmpty then none
      else
        match cs.drop a.length with
        | '@' :: r2 =>
          match tryDomainSplit r2 (r2.takeWhile isEmailDomainChar).length with
          | some n =>
            let len := a.length + 1 + n
            some (cs.take len, cs.drop len)
          | none => none
        | _ => none

/-- The `re.findall` scan: try each start position left to right, and continue
after the end of a match (matches are non-overlapping).  Every match ends
in a letter, hence in a word character, so `true` is passed as the
boundary context after a match.  The fuel is an upper bound on the number
of steps; each step consumes at least one character, so `length` suffices. -/
def emailFindAllAux : Nat → Bool → List Char → List String
  | 0, _, _ => []
  | _ + 1, _, [] => []
  | fuel + 1, pw, c :: cs =>
    match matchEmailAt pw (c :: cs) with
    | some (m, rest) => (⟨m⟩ : String) :: emailFindAllAux fuel true rest
    | none => emailFindAllAux fuel (isWordChar c) cs

/-- Embedding of `BusinessContactExtractor.extract_emails_from_html`.  Here `re.IGNORECASE`
is irrelevant: every character class already contains both cases. -/
def extract_emails_from_html (html : String) : List String :=
  emailFindAllAux html.data.length false html.data

/-- Case-insensitive literal matcher: if the text starts with the (given
lowercase) pattern, return the consumed original-case text and the rest. -/
def stripPrefixCI : List Char → List Char → Option (List Char × List Char)
  | [], cs => some ([], cs)
  | _ :: _, [] => none
  | p :: ps, c :: cs =>
    if c.toLower == p then
      match stripPrefixCI ps cs with
      | some (m, rest) => some (c :: m, rest)
      | none => none
    else none

/-- The negated class `[^"\'\s>]` of the social patterns. -/
def isSocialRunChar (c : Char) : Bool :=
  !(c == '"' || c == '\'' || c.isWhitespace || c == '>')

/-- One attempt of `https?://(www\.)?<domain>` + `[^"\'\s>]+` at the start
of `cs` (case-insensitively), returning `group(0)`.  The optional pieces
need no backtracking: after `s?` the literal `':'` differs from `'s'`, and
no `<domain>` begins with `"www."`, so the greedy choice is the only one. -/
def matchSocialAt (domain : List Char) (cs : List Char) : Option (List Char) :=
  match stripPrefixCI "http".data cs with
  | none => none
  | some (m1, r1) =>
    let s2 := match stripPrefixCI ['s'] r1 with
      | some p => p
      | none => ([], r1)
    match stripPrefixCI "://".data s2.2 with
    | none => none
    | some (m3, r3) =>
      let s4 := match stripPrefixCI "www.".data r3 with
        | some p => p
        | none => ([], r3)
      match stripPrefixCI domain s4.2 with
      | none => none
      | some (m5, r5) =>
        let run := r5.takeWhile isSocialRunChar
        if run.isEmpty then none
        else some (m1 ++ s2.1 ++ m3 ++ s4.1 ++ m5 ++ run)

/-- Model of `re.search` for a social pattern: leftmost successful attempt. -/
def searchSocialAux (domain : List Char) : List Char → Option (List Char)
  | [] => none
  | c :: cs =>
    match matchSocialAt domain (c :: cs) with
    | some m => some m
    | none => searchSocialAux domain cs

/-- Leftmost match of the social pattern for one platform `domain`. -/
def searchSocial (domain : String) (html : String) : Option String :=
  (searchSocialAux domain.data html.data).map String.mk

/-- The `social_patterns` table: per-platform domain literal (the part of
the pattern that differs) and platform label, in source order. -/
def socialPatterns : List (String × String) :=
  [("facebook.com/", "Facebook"), ("linkedin.com/", "LinkedIn"),
   ("instagram.com/", "Instagram"), ("twitter.com/", "Twitter"),
   ("x.com/", "X/Twitter")]

/-- The `for pattern, platform in social_patterns` loop. -/
def extractSocialAux : List (String × String) → String → String
  | [], _ => ""
  | (d, _) :: rest, html =>
    match searchSocial d html with
    | some m => m
    | none => extractSocialAux rest html

/-- Embedding of `BusinessContactExtractor.extract_social_links`. -/
def extract_social_links (html : String) : String :=
  extractSocialAux socialPatterns html

/-! ## Contact aggregation (`extract_contacts`)

The page fetcher (`fetch_page_content`, a network call) is modelled as an
oracle `fetch : String → Option String`; `none` models any request failure.
To make the claim "no network calls" statable, the aggregator also returns
the trace of URLs passed to the fetcher. -/

/-- Model of `urllib.parse.urljoin` at this program's call sites: the base
is an output of `normalize_url` (`scheme://netloc...` with an `http`-like
scheme) and the path is `""` or starts with `'/'`.  `urljoin(base, "")`
returns the base; for an absolute path, when the base's scheme is `http` or
`https` (the only `uses_relative` schemes reachable here) the result is
`scheme://netloc` + path; for any other scheme `urljoin` returns the path
unchanged.  A base with a scheme but no authority cannot be produced by
`normalize_url`, and is mapped to the path as well.  A base accepted by
`normalize_url` has already passed `urlsplit`'s bracket checks, so the
internal parse of `urljoin` never raises at these call sites. -/
def urljoin (base path : String) : String :=
  if path = "" then base
  else
    let cs := urlsplitClean base.data
    match splitScheme cs with
    | some (sch, rest) =>
      let schl := pyLowerL sch
      if schl = "http".data ∨ schl = "https".data then
        match rest with
        | '/' :: '/' :: r =>
          let netloc := r.takeWhile (fun c => !(c == '/' || c == '?' || c == '#'))
          (⟨schl⟩ : String) ++ "://" ++ (⟨netloc⟩ : String) ++ path
        | _ => path
      else path
    | none => path

/-- Python `set.update`: insert each found email, keeping one copy.  The
iteration order of a Python `set` is unspecified; the model keeps first
insertion order (no verified claim depends on the order). -/
def setUpdate (s : List String) (new : List String) : List String :=
  new.foldl (fun acc e => if e ∈ acc then acc else acc ++ [e]) s

/-- The loop state of `extract_contacts`: the accumulated email set, the
social link, and the trace of URLs handed to the fetcher. -/
structure FetchState where
  all_emails : List String
  social_link : String
  fetched : List String

/-- One iteration of the `for path in pages_to_check` loop.  The fetch is
recorded in the trace whether or not it succeeds; `if html:` in the source
skips both a failed fetch (`None`) and empty content (`""`).  The social
link is only written while it is still empty.  (`time.sleep` has no
observable effect and is not modelled.) -/
def visitPage (fetch : String → Option String) (base_url : String)
    (st : FetchState) (path : String) : FetchState :=
  let full_url := urljoin base_url path
  let st := { st with fetched := st.fetched ++ [full_url] }
  match fetch full_url with
  | none => st
  | some html =>
    if html = "" then st
    else
      { st with
        all_emails := setUpdate st.all_emails (extract_emails_from_html html)
        social_link :=
          if st.social_link = "" then extract_social_links html
          else st.social_link }

/-- The list `pages_to_check` of `extract_contacts`. -/
def pages_to_check : List String := ["", "/contact", "/about", "/contact-us"]

/-- Embedding of `BusinessContactExtractor.extract_contacts`.  First component: the
`(cleaned emails, social link)` pair the Python function returns; second
component: the trace of fetched URLs. -/
def extract_contacts (fetch : String → Option String) (website_url : String) :
    (List String × String) × List String :=
  match normalize_url website_url with
  | none => (([], ""), [])
  | some base_url =>
    let st := pages_to_check.foldl (visitPage fetch base_url) ⟨[], "", []⟩
    ((clean_emails st.all_emails, st.social_link), st.fetched)

/-! ## Batch runner (`process_csv`)

The CSV plumbing is external; a row is its two required columns.  Records
are built in input order and then sorted with Python's stable `sorted` by
the key `(primary_email == '', business_name)`; any stable sort for a total
preorder produces the same list, so Lean's stable `List.mergeSort` models
it. -/

/-- One input row: the `"Business Name"` and `"Website"` columns. -/
structure BusinessRow where
  businessName : String
  website : String

/-- One output record of `process_csv` (the `result` dict). -/
structure ResultRecord where
  businessName : String
  website : String
  primaryEmail : String
  secondaryEmail : String
  socialMedia : String
  emailsFound : Nat
  hasContact : String
deriving DecidableEq, Repr

/-- The per-row body of the `for index, row in df.iterrows()` loop:
`emails[i] if len(emails) > i else ''` is `List.getD i ""`, and
`'Yes' if emails or social else 'No'` tests list and string truthiness. -/
def processBusiness (fetch : String → Option String) (row : BusinessRow) :
    ResultRecord :=
  let r := extract_contacts fetch row.website
  let emails := r.1.1
  let social := r.1.2
  { businessName := row.businessName
    website := row.website
    primaryEmail := emails.getD 0 ""
    secondaryEmail := emails.getD 1 ""
    socialMedia := social
    emailsFound := emails.length
    hasContact := if emails ≠ [] ∨ social ≠ "" then "Yes" else "No" }

/-- The sort key test `x['Primary Email'] == ''`. -/
def emailMissing (r : ResultRecord) : Bool := r.primaryEmail == ""

/-- Python tuple comparison on `(x['Primary Email'] == '', x['Business
Name'])`: lexicographic, with `False < True` on booleans and code-point
lexicographic order on strings. -/
def resultKeyLe (a b : ResultRecord) : Bool :=
  (!emailMissing a && emailMissing b) ||
    (emailMissing a == emailMissing b &&
      decide (a.businessName ≤ b.businessName))

/-- Embedding of `process_csv` restricted to its pure core: build one record per row in
input order, then the stable sort `sorted(results, key=...)`. -/
def process_csv (fetch : String → Option String) (rows : List BusinessRow) :
    List ResultRecord :=
  (rows.map (processBusiness fetch)).mergeSort resultKeyLe

/-! ## Properties of `clean_emails` -/

/-- Loop invariant of `clean_emails`: starting from an accumulator of at
most one clean, duplicate-free entry, the loop returns at most two
duplicate-free entries, and every entry not taken from the accumulator is
the stripped-and-lowercased form of an input candidate that passed the
emptiness, extension and placeholder filters. -/
theorem cleanEmailsLoop_spec (emails : List String) :
    ∀ clean : List String, clean.length ≤ 1 → clean.Nodup →
      (cleanEmailsLoop emails clean).length ≤ 2 ∧
      (cleanEmailsLoop emails clean).Nodup ∧
      (∀ x ∈ cleanEmailsLoop emails clean, x ∈ clean ∨
        ((∃ e ∈ emails, x = pyStripLower e) ∧ x ≠ "" ∧
          hasExcludedExtension x = false ∧ matchesPlaceholder x = false)) := by
  induction emails with
  | nil =>
    intro clean hlen hnd
    exact ⟨by simpa [cleanEmailsLoop] using hlen.trans one_le_two,
      by simpa [cleanEmailsLoop] using hnd,
      fun x hx => Or.inl (by simpa [cleanEmailsLoop] using hx)⟩
  | cons e rest ih =>
    intro clean hlen hnd
    simp only [cleanEmailsLoop]
    split
    · rcases ih clean hlen hnd with ⟨h1, h2, h3⟩
      refine ⟨h1, h2, fun x hx => ?_⟩
      rcases h3 x hx with h | ⟨⟨e', he', hxe⟩, hr⟩
      · exact Or.inl h
      · exact Or.inr ⟨⟨e', List.mem_cons_of_mem _ he', hxe⟩, hr⟩
    · split
      · rcases ih clean hlen hnd with ⟨h1, h2, h3⟩
        refine ⟨h1, h2, fun x hx => ?_⟩
        rcases h3 x hx with h | ⟨⟨e', he', hxe⟩, hr⟩
        · exact Or.inl h
        · exact Or.inr ⟨⟨e', List.mem_cons_of_mem _ he', hxe⟩, hr⟩
      · split
        · rcases ih clean hlen hnd with ⟨h1, h2, h3⟩
          refine ⟨h1, h2, fun x hx => ?_⟩
          rcases h3 x hx with h | ⟨⟨e', he', hxe⟩, hr⟩
          · exact Or.inl h
          · exact Or.inr ⟨⟨e', List.mem_cons_of_mem _ he', hxe⟩, hr⟩
        · next hne hext hplc =>
          have hgood : (pyStripLower e ≠ "") ∧
              hasExcludedExtension (pyStripLower e) = false ∧
              matchesPlaceholder (pyStripLower e) = false :=
            ⟨hne, Bool.eq_false_iff.mpr hext, Bool.eq_false_iff.mpr hplc⟩
          by_cases hm : pyStripLower e ∈ clean
          · rw [if_pos hm, if_neg (by omega)]
            rcases ih clean hlen hnd with ⟨h1, h2, h3⟩
            refine ⟨h1, h2, fun x hx => ?_⟩
            rcases h3 x hx with h | ⟨⟨e', he', hxe⟩, hr⟩
            · exact Or.inl h
            · exact Or.inr ⟨⟨e', List.mem_cons_of_mem _ he', hxe⟩, hr⟩
          · rw [if_neg hm]
            have hnd' : (clean ++ [pyStripLower e]).Nodup := by
              simp [List.nodup_append, hnd, hm]
            by_cases h2 : 2 ≤ (clean ++ [pyStripLower e]).length
            · rw [if_pos h2]
              have hlen2 : (clean ++ [pyStripLower e]).length ≤ 2 := by
                simp only [List.length_append, List.length_singleton]
                omega
              refine ⟨hlen2, hnd', fun x hx => ?_⟩
              rcases List.mem_append.mp hx with h | h
              · exact Or.inl h
              · have hx1 : x = pyStripLower e := by simpa using h
                exact Or.inr ⟨⟨e, List.mem_cons_self e rest, hx1⟩,
                  hx1 ▸ hgood.1, hx1 ▸ hgood.2.1, hx1 ▸ hgood.2.2⟩
            · rw [if_neg h2]
              have hlen' : (clean ++ [pyStripLower e]).length ≤ 1 := by omega
              rcases ih (clean ++ [pyStripLower e]) hlen' hnd' with ⟨h1', h2', h3'⟩
              refine ⟨h1', h2', fun x hx => ?_⟩
              rcases h3' x hx with h | ⟨⟨e', he', hxe⟩, hr⟩
              · rcases List.mem_append.mp h with h | h
                · exact Or.inl h
                · have hx1 : x = pyStripLower e := by simpa using h
                  exact Or.inr ⟨⟨e, List.mem_cons_self e rest, hx1⟩,
                    hx1 ▸ hgood.1, hx1 ▸ hgood.2.1, hx1 ▸ hgood.2.2⟩
              · exact Or.inr ⟨⟨e', List.mem_cons_of_mem _ he', hxe⟩, hr⟩

/-- C1: for every input list, `clean_emails` returns at most two entries,
each the stripped-and-lowercased form of some input element, none ending in
an excluded file extension or matching a placeholder prefix pattern, and
with no duplicates. -/
theorem C1_clean_emails_invariant (emails : List String) :
    (clean_emails emails).length ≤ 2 ∧
    (∀ x ∈ clean_emails emails, ∃ e ∈ emails, x = pyStripLower e) ∧
    (∀ x ∈ clean_emails emails,
      hasExcludedExtension x = false ∧ matchesPlaceholder x = false) ∧
    (clean_emails emails).Nodup := by
  rcases cleanEmailsLoop_spec emails [] (by simp) (by simp) with ⟨h1, h2, h3⟩
  refine ⟨h1, fun x hx => ?_, fun x hx => ?_, h2⟩
  · rcases h3 x hx with h | ⟨he, _⟩
    · simp at h
    · exact he
  · rcases h3 x hx with h | ⟨_, _, h4, h5⟩
    · simp at h
    · exact ⟨h4, h5⟩

/-- Witness for C1 at a concrete input: `"info@acme.com"` is in the output
for `["Info@Acme.COM", "pic@site.png"]` and is the stripped-lowercased form
of an input element. -/
theorem C1_clean_emails_invariant_witness :
    ∃ e ∈ ["Info@Acme.COM", "pic@site.png"], "info@acme.com" = pyStripLower e :=
  (C1_clean_emails_invariant ["Info@Acme.COM", "pic@site.png"]).2.1
    "info@acme.com" (by decide)

/-- C8: `clean_emails ["A@x.com", "a@x.com", "b@x.com"]` lowercases and
keeps the first candidate, drops the second as a case-fold duplicate, and
keeps the third. -/
theorem C8_clean_emails_example :
    clean_emails ["A@x.com", "a@x.com", "b@x.com"] = ["a@x.com", "b@x.com"] := by
  decide

/-! ## Properties of `normalize_url` -/

/-- A list is unchanged by `dropWhile` twice iff once. -/
theorem dropWhile_self_idem (p : Char → Bool) :
    ∀ l : List Char, (l.dropWhile p).dropWhile p = l.dropWhile p := by
  intro l
  induction l with
  | nil => rfl
  | cons a l ih =>
    by_cases hp : p a = true
    · rw [List.dropWhile_cons_of_pos hp]; exact ih
    · rw [List.dropWhile_cons_of_neg hp, List.dropWhile_cons_of_neg hp]

/-- Stripping trailing slashes is idempotent. -/
theorem rstripSlashesL_idem (cs : List Char) :
    rstripSlashesL (rstripSlashesL cs) = rstripSlashesL cs := by
  simp only [rstripSlashesL, List.reverse_reverse]
  rw [dropWhile_self_idem]

/-- A nonempty list that is already free of trailing slashes stays
unchanged by `rstripSlashesL` after prepending anything. -/
theorem rstripSlashesL_append_fix (a w : List Char) (hw : w ≠ [])
    (hfix : rstripSlashesL w = w) : rstripSlashesL (a ++ w) = a ++ w := by
  have hrev : w.reverse.dropWhile (fun c => c == '/') = w.reverse := by
    have := congrArg List.reverse hfix
    simpa [rstripSlashesL] using this
  obtain ⟨b, t, hbt⟩ : ∃ b t, w.reverse = b :: t := by
    cases h : w.reverse with
    | nil => exact absurd (by simpa using congrArg List.reverse h) hw
    | cons b t => exact ⟨b, t, rfl⟩
  have hb : ¬((b == '/') = true) := by
    intro hb
    rw [hbt, List.dropWhile_cons, if_pos hb] at hrev
    have hlen := congrArg List.length hrev
    have hle : (t.dropWhile (fun c => c == '/')).length ≤ t.length :=
      (List.dropWhile_sublist _).length_le
    simp at hlen
    omega
  simp only [rstripSlashesL, List.reverse_append, hbt, List.cons_append]
  rw [List.dropWhile_cons, if_neg hb]
  rw [show b :: (t ++ a.reverse) = (b :: t) ++ a.reverse from rfl,
    List.reverse_append, List.reverse_reverse, ← hbt, List.reverse_reverse]

/-- Case analysis of `normalize_url`: a `some` result is the trimmed,
slash-stripped, scheme-prefixed string, and it passed the parse-and-host
gate. -/
theorem normalize_url_eq_some (s u : String) (h : normalize_url s = some u) :
    u.data = (if "http".data.isPrefixOf (rstripSlashesL (pyStripL s.data))
      then rstripSlashesL (pyStripL s.data)
      else "http://".data ++ rstripSlashesL (pyStripL s.data)) ∧
    netlocValid u.data = true ∧ pyStripL s.data ≠ [] := by
  simp only [normalize_url] at h
  by_cases h0 : (pyStripL s.data).isEmpty = true
  · rw [if_pos h0] at h; exact absurd h (by simp)
  · rw [if_neg h0] at h
    by_cases h1 : netlocValid (if "http".data.isPrefixOf (rstripSlashesL (pyStripL s.data))
        then rstripSlashesL (pyStripL s.data)
        else "http://".data ++ rstripSlashesL (pyStripL s.data)) = true
    · rw [if_pos h1] at h
      have hu : u.data = (if "http".data.isPrefixOf (rstripSlashesL (pyStripL s.data))
          then rstripSlashesL (pyStripL s.data)
          else "http://".data ++ rstripSlashesL (pyStripL s.data)) := by
        have := congrArg String.data (Option.some.inj h)
        exact this.symm
      refine ⟨hu, ?_, by simpa [List.isEmpty_iff] using h0⟩
      rw [hu]
      exact h1
    · rw [if_neg h1] at h; exact absurd h (by simp)

/-- Projection of the string constructor. -/
theorem dataMk (l : List Char) : (⟨l⟩ : String).data = l := rfl

/-- Modelled from the spec: the URL-normalizer contract read literally as
claim C2 states it — trim whitespace; invalid if empty after trimming;
strip a SINGLE trailing slash; prepend `"http://"` when the scheme prefix
(`"http"`, per the source's test) is absent; invalid when the parse yields
no host. -/
def normalizeUrlSpecSingleSlash (url : String) : Option String :=
  let t : String := ⟨pyStripL url.data⟩
  if t = "" then none
  else
    let b : String := if t.data.getLast? = some '/' then ⟨t.data.dropLast⟩ else t
    let cand : String := if "http".data.isPrefixOf b.data then b else "http://" ++ b
    if netlocValid cand.data then some cand else none

/-- Modelled from the spec, amended per the counterexample: identical to
`normalizeUrlSpecSingleSlash` except that ALL trailing slashes are
stripped. -/
def normalizeUrlSpec (url : String) : Option String :=
  let t : String := ⟨pyStripL url.data⟩
  if t = "" then none
  else
    let b : String := ⟨rstripSlashesL t.data⟩
    let cand : String := if "http".data.isPrefixOf b.data then b else "http://" ++ b
    if netlocValid cand.data then some cand else none

/-- Counterexample to C2 as stated: on `"example.com//"` the code strips
both trailing slashes, while the claimed single-slash normalizer keeps
one. -/
theorem C2_counterexample :
    normalize_url "example.com//" ≠ normalizeUrlSpecSingleSlash "example.com//" ∧
    normalize_url "example.com//" = some "http://example.com" ∧
    normalizeUrlSpecSingleSlash "example.com//" = some "http://example.com/" := by
  decide

/-- C2 (amended: "strips all trailing slashes" in place of "a single
trailing slash"): `normalize_url` realizes the spec's normalizer contract,
and the three examples of the claim hold. -/
theorem C2_normalize_url (url : String) :
    normalize_url url = normalizeUrlSpec url ∧
    normalize_url "example.com/" = some "http://example.com" ∧
    normalize_url "" = none ∧
    normalize_url "http://a.b" = some "http://a.b" := by
  refine ⟨?_, by decide, by decide, by decide⟩
  simp only [normalize_url, normalizeUrlSpec, dataMk, String.data_append]
  have e1 : ((pyStripL url.data).isEmpty = true) ↔ ((⟨pyStripL url.data⟩ : String) = "") := by
    simp [List.isEmpty_iff, String.ext_iff]
  by_cases h0 : (pyStripL url.data).isEmpty = true
  · rw [if_pos h0, if_pos (e1.mp h0)]
  · rw [if_neg h0, if_neg (fun hh => h0 (e1.mpr hh))]
    have hcand : (if "http".data.isPrefixOf (rstripSlashesL (pyStripL url.data))
          then (⟨rstripSlashesL (pyStripL url.data)⟩ : String)
          else "http://" ++ ⟨rstripSlashesL (pyStripL url.data)⟩) =
        ⟨if "http".data.isPrefixOf (rstripSlashesL (pyStripL url.data))
          then rstripSlashesL (pyStripL url.data)
          else "http://".data ++ rstripSlashesL (pyStripL url.data)⟩ := by
      by_cases hp : "http".data.isPrefixOf (rstripSlashesL (pyStripL url.data)) = true
      · rw [if_pos hp, if_pos hp]
      · rw [if_neg hp, if_neg hp]; exact String.ext (by simp)
    rw [hcand, dataMk]

/-- Counterexample to C9 as stated: `normalize_url` is not idempotent.
On `"a /"` the trailing slash is stripped but the whitespace before it
survives, so the result `"http://a "` normalizes further to
`"http://a"`. -/
theorem C9_counterexample :
    normalize_url "a /" = some "http://a " ∧
    normalize_url "http://a " = some "http://a" ∧
    normalize_url "http://a " ≠ some "http://a " := by
  decide

/-- C9 (amended: restricted to results that carry no surrounding
whitespace, the only situation the counterexample exhibits): if
`normalize_url s` returns `u` and stripping whitespace leaves `u`
unchanged, then `normalize_url u = some u`. -/
theorem C9_normalize_url_idem (s u : String) (h1 : normalize_url s = some u)
    (h2 : pyStripL u.data = u.data) : normalize_url u = some u := by
  obtain ⟨hu, hnet, -⟩ := normalize_url_eq_some s u h1
  have hne : u.data ≠ [] := by
    intro h
    rw [h] at hnet
    exact absurd hnet (by decide)
  have hfix : rstripSlashesL u.data = u.data := by
    rw [hu]
    by_cases hp : "http".data.isPrefixOf (rstripSlashesL (pyStripL s.data)) = true
    · rw [if_pos hp]
      exact rstripSlashesL_idem _
    · rw [if_neg hp]
      by_cases hw : rstripSlashesL (pyStripL s.data) = []
      · exfalso
        rw [hu, if_neg hp, hw] at hnet
        exact absurd hnet (by decide)
      · exact rstripSlashesL_append_fix _ _ hw (rstripSlashesL_idem _)
  have hpref : "http".data.isPrefixOf u.data = true := by
    rw [hu]
    by_cases hp : "http".data.isPrefixOf (rstripSlashesL (pyStripL s.data)) = true
    · rw [if_pos hp]; exact hp
    · rw [if_neg hp]
      simp only [List.isPrefixOf_iff_prefix]
      have hh : "http".data <+: "http://".data := by decide
      exact hh.trans (List.prefix_append _ _)
  simp only [normalize_url, h2, hfix]
  rw [if_neg (by simpa [List.isEmpty_iff] using hne), if_pos hpref, if_pos hnet]

/-- Witness for C9 as amended, at a concrete input. -/
theorem C9_normalize_url_idem_witness :
    normalize_url "http://example.com" = some "http://example.com" :=
  C9_normalize_url_idem "example.com/" "http://example.com" (by decide) (by decide)

/-! ## Properties of `extract_social_links` -/

/-- If no platform pattern matches, the scan returns the empty string. -/
theorem extractSocialAux_eq_empty :
    ∀ (ds : List (String × String)) (html : String),
      (∀ q ∈ ds, searchSocial q.1 html = none) →
      extractSocialAux ds html = "" := by
  intro ds
  induction ds with
  | nil => intro html _; rfl
  | cons q rest ih =>
    intro html h
    obtain ⟨d, p⟩ := q
    simp only [extractSocialAux, h (d, p) (List.mem_cons_self _ _)]
    exact ih html (fun q hq => h q (List.mem_cons_of_mem _ hq))

/-- The scan returns the match of the first platform (in table order) whose
pattern matches. -/
theorem extractSocialAux_first :
    ∀ (pre : List (String × String)) (dp : String × String)
      (post : List (String × String)) (html m : String),
      (∀ q ∈ pre, searchSocial q.1 html = none) →
      searchSocial dp.1 html = some m →
      extractSocialAux (pre ++ dp :: post) html = m := by
  intro pre
  induction pre with
  | nil =>
    intro dp post html m _ hd
    obtain ⟨d, p⟩ := dp
    simp only [List.nil_append, extractSocialAux]
    simp only [hd]
  | cons q rest ih =>
    intro dp post html m hpre hd
    obtain ⟨d0, p0⟩ := q
    simp only [List.cons_append, extractSocialAux,
      hpre (d0, p0) (List.mem_cons_self _ _)]
    exact ih dp post html m (fun q hq => hpre q (List.mem_cons_of_mem _ hq)) hd

/-- C3: the social scan tests the platform patterns in the fixed order of
`socialPatterns` (Facebook, LinkedIn, Instagram, Twitter, X/Twitter) and
returns the leftmost match of the first platform that matches anywhere, or
`""` when none does; in particular, on HTML holding a LinkedIn URL before a
Facebook URL it returns the Facebook URL. -/
theorem C3_social_priority :
    (∀ (html : String) (pre post : List (String × String)) (d p m : String),
      socialPatterns = pre ++ (d, p) :: post →
      (∀ q ∈ pre, searchSocial q.1 html = none) →
      searchSocial d html = some m →
      extract_social_links html = m) ∧
    (∀ html : String,
      (∀ q ∈ socialPatterns, searchSocial q.1 html = none) →
      extract_social_links html = "") ∧
    extract_social_links
        "<a href='https://www.linkedin.com/company/acme'> and <a href='https://www.facebook.com/acmeco'>" =
      "https://www.facebook.com/acmeco" := by
  refine ⟨?_, ?_, by decide⟩
  · intro html pre post d p m hlist hpre hd
    show extractSocialAux socialPatterns html = m
    rw [hlist]
    exact extractSocialAux_first pre (d, p) post html m hpre hd
  · intro html h
    exact extractSocialAux_eq_empty socialPatterns html h

/-- Witness for C3 at a concrete input, discharging the priority
hypotheses for the Facebook pattern. -/
theorem C3_social_priority_witness :
    extract_social_links "see https://facebook.com/acme now" =
      "https://facebook.com/acme" :=
  C3_social_priority.1 "see https://facebook.com/acme now" []
    [("linkedin.com/", "LinkedIn"), ("instagram.com/", "Instagram"),
     ("twitter.com/", "Twitter"), ("x.com/", "X/Twitter")]
    "facebook.com/" "Facebook" "https://facebook.com/acme" rfl
    (fun q hq => absurd hq (List.not_mem_nil q)) (by decide)

/-! ## Properties of `extract_contacts` -/

/-- C6: when URL normalization fails, `extract_contacts` returns the empty
email list and empty social string immediately, with an empty fetch trace
(no page fetch is performed). -/
theorem C6_invalid_url_no_fetch (fetch : String → Option String)
    (website : String) (h : normalize_url website = none) :
    extract_contacts fetch website = (([], ""), []) := by
  simp only [extract_contacts, h]

/-- Witness for C6: the empty website fails normalization, so nothing is
fetched even from an always-succeeding fetcher. -/
theorem C6_invalid_url_no_fetch_witness :
    extract_contacts (fun _ => some "a@b.co") "" = (([], ""), []) :=
  C6_invalid_url_no_fetch (fun _ => some "a@b.co") "" (by decide)

/-- The social result contributed by one page: empty when the fetch fails
or returns empty content, otherwise the social scan of the content. -/
def pageSocial (fetch : String → Option String) (base_url path : String) : String :=
  match fetch (urljoin base_url path) with
  | none => ""
  | some html => if html = "" then "" else extract_social_links html

/-- The step `visitPage` only writes the social link while it is still empty, and
then writes exactly the page's social result. -/
theorem visitPage_social (fetch : String → Option String) (base : String)
    (st : FetchState) (path : String) :
    (visitPage fetch base st path).social_link =
      if st.social_link = "" then pageSocial fetch base path
      else st.social_link := by
  simp only [visitPage, pageSocial]
  cases hf : fetch (urljoin base path) with
  | none =>
    by_cases hs : st.social_link = "" <;> simp [hs]
  | some html =>
    by_cases hh : html = ""
    · by_cases hs : st.social_link = "" <;> simp [hh, hs]
    · by_cases hs : st.social_link = "" <;> simp [hh, hs]

/-- The first nonempty social result over a page list, in order. -/
def firstSocial (fetch : String → Option String) (base : String)
    (paths : List String) : String :=
  ((paths.map (pageSocial fetch base)).find? (fun s => !(s == ""))).getD ""

/-- Over the page loop, the social link is the accumulator if already set,
otherwise the first nonempty page social result. -/
theorem foldl_visitPage_social (fetch : String → Option String) (base : String) :
    ∀ (paths : List String) (st : FetchState),
      (paths.foldl (visitPage fetch base) st).social_link =
        if st.social_link = "" then firstSocial fetch base paths
        else st.social_link := by
  intro paths
  induction paths with
  | nil =>
    intro st
    by_cases hs : st.social_link = "" <;> simp [firstSocial, hs]
  | cons p rest ih =>
    intro st
    simp only [List.foldl_cons]
    rw [ih (visitPage fetch base st p), visitPage_social]
    by_cases hs : st.social_link = ""
    · rw [if_pos hs]
      by_cases hp : pageSocial fetch base p = ""
      · simp [hs, hp, firstSocial, List.find?_cons]
      · simp [hs, hp, firstSocial, List.find?_cons]
    · rw [if_neg hs, if_neg hs, if_neg hs]

/-- C7: for a business whose website normalizes to `base`, the social link
returned by `extract_contacts` is the social result of the first page, in
`pages_to_check` order, whose fetched content yields a nonempty match;
pages after it never overwrite it. -/
theorem C7_first_page_social (fetch : String → Option String) (w base : String)
    (h : normalize_url w = some base) :
    (extract_contacts fetch w).1.2 =
      ((pages_to_check.map (pageSocial fetch base)).find?
        (fun s => !(s == ""))).getD "" := by
  simp only [extract_contacts, h]
  rw [foldl_visitPage_social]
  simp [firstSocial]

/-- Witness for C7: a site whose landing page has no social link but whose
`/contact` page links Facebook. -/
theorem C7_first_page_social_witness :
    (extract_contacts
        (fun u => if u = "http://e.com/contact"
          then some "visit https://facebook.com/acme today" else some "plain page")
        "e.com").1.2 =
      ((pages_to_check.map (pageSocial
        (fun u => if u = "http://e.com/contact"
          then some "visit https://facebook.com/acme today" else some "plain page")
        "http://e.com")).find? (fun s => !(s == ""))).getD "" :=
  C7_first_page_social
    (fun u => if u = "http://e.com/contact"
      then some "visit https://facebook.com/acme today" else some "plain page")
    "e.com" "http://e.com" (by decide)

/-! ## Properties of the per-row records (`process_csv` loop body) -/

/-- If every fetch fails, the aggregator returns empty contacts. -/
theorem extract_contacts_all_none (fetch : String → Option String)
    (hnone : ∀ u, fetch u = none) (w : String) :
    (extract_contacts fetch w).1 = ([], "") := by
  unfold extract_contacts
  cases hn : normalize_url w with
  | none => rfl
  | some base =>
    have hfold : ∀ (paths : List String) (st : FetchState),
        (paths.foldl (visitPage fetch base) st).all_emails = st.all_emails ∧
        (paths.foldl (visitPage fetch base) st).social_link = st.social_link := by
      intro paths
      induction paths with
      | nil => intro st; exact ⟨rfl, rfl⟩
      | cons p rest ih =>
        intro st
        simp only [List.foldl_cons]
        rcases ih (visitPage fetch base st p) with ⟨h1, h2⟩
        rw [h1, h2]
        constructor
        · simp [visitPage, hnone]
        · simp [visitPage, hnone]
    rcases hfold pages_to_check ⟨[], "", []⟩ with ⟨h1, h2⟩
    simp [h1, h2, clean_emails, cleanEmailsLoop]

/-- C5: a record's `Has Contact` flag is `"Yes"` exactly when its email
count is positive or its social link is nonempty; and a business none of
whose pages yields content produces the all-empty record flagged `"No"`. -/
theorem C5_has_contact (fetch : String → Option String) (row : BusinessRow) :
    ((processBusiness fetch row).hasContact = "Yes" ↔
      (0 < (processBusiness fetch row).emailsFound ∨
        (processBusiness fetch row).socialMedia ≠ "")) ∧
    ((∀ u, fetch u = none) →
      processBusiness fetch row =
        ⟨row.businessName, row.website, "", "", "", 0, "No"⟩) := by
  constructor
  · simp only [processBusiness]
    by_cases h : (extract_contacts fetch row.website).1.1 ≠ [] ∨
        (extract_contacts fetch row.website).1.2 ≠ ""
    · rw [if_pos h]
      simp only [true_iff, List.length_pos]
      exact h.imp id id
    · rw [if_neg h]
      push_neg at h
      obtain ⟨h1, h2⟩ := h
      simp [h1, h2]
  · intro hnone
    have h := extract_contacts_all_none fetch hnone row.website
    simp [processBusiness, h]

/-- Witness for C5: with an always-failing fetcher, the record is all
empty and flagged `"No"`. -/
theorem C5_has_contact_witness :
    processBusiness (fun _ => none) ⟨"Acme", "acme.com"⟩ =
      ⟨"Acme", "acme.com", "", "", "", 0, "No"⟩ :=
  (C5_has_contact (fun _ => none) ⟨"Acme", "acme.com"⟩).2 (fun _ => rfl)

/-- The email list of `extract_contacts` is always an output of
`clean_emails`. -/
theorem extract_contacts_emails_clean (fetch : String → Option String)
    (w : String) : ∃ raw, (extract_contacts fetch w).1.1 = clean_emails raw := by
  unfold extract_contacts
  cases hn : normalize_url w with
  | none => exact ⟨[], rfl⟩
  | some base => exact ⟨_, rfl⟩

/-- Field coherence of the record built from a short list of nonempty
emails. -/
theorem record_fields_coherent (emails : List String)
    (hlen : emails.length ≤ 2) (hne : ∀ x ∈ emails, x ≠ "") :
    ((emails.getD 1 "" ≠ "") → (emails.getD 0 "" ≠ "")) ∧
    emails.length =
      ((if emails.getD 0 "" ≠ "" then 1 else 0) +
        (if emails.getD 1 "" ≠ "" then 1 else 0)) := by
  rcases emails with _ | ⟨a, _ | ⟨b, _ | ⟨c, t⟩⟩⟩
  · simp
  · have ha := hne a (by simp)
    simp [ha]
  · have ha := hne a (by simp)
    have hb := hne b (by simp)
    simp [List.getD, ha, hb]
  · exfalso
    simp at hlen

/-- C10: in every result record the secondary email is nonempty only when
the primary one is, and the `Emails Found` count is at most 2 and equals
the number of nonempty email fields. -/
theorem C10_record_coherence (fetch : String → Option String) (row : BusinessRow) :
    ((processBusiness fetch row).secondaryEmail ≠ "" →
      (processBusiness fetch row).primaryEmail ≠ "") ∧
    (processBusiness fetch row).emailsFound ≤ 2 ∧
    (processBusiness fetch row).emailsFound =
      ((if (processBusiness fetch row).primaryEmail ≠ "" then 1 else 0) +
        (if (processBusiness fetch row).secondaryEmail ≠ "" then 1 else 0)) := by
  obtain ⟨raw, hraw⟩ := extract_contacts_emails_clean fetch row.website
  have hspec := cleanEmailsLoop_spec raw [] (by simp) (by simp)
  have hlen : (clean_emails raw).length ≤ 2 := hspec.1
  have hne : ∀ x ∈ clean_emails raw, x ≠ "" := by
    intro x hx
    rcases hspec.2.2 x hx with h | ⟨_, h, _⟩
    · simp at h
    · exact h
  have hb := record_fields_coherent (clean_emails raw) hlen hne
  simp only [processBusiness, hraw]
  exact ⟨hb.1, hlen, hb.2⟩

/-- Witness for C10: a site yielding two emails has a nonempty primary
email whenever the secondary one is nonempty. -/
theorem C10_record_coherence_witness :
    (processBusiness (fun _ => some "mail a@x.io and b@x.io") ⟨"Acme", "e.com"⟩).primaryEmail ≠ "" :=
  (C10_record_coherence (fun _ => some "mail a@x.io and b@x.io") ⟨"Acme", "e.com"⟩).1
    (by decide)

/-! ## Properties of the result sort (`process_csv`) -/

/-- The sort key comparison is total. -/
theorem resultKeyLe_total (a b : ResultRecord) :
    resultKeyLe a b || resultKeyLe b a := by
  simp only [resultKeyLe]
  cases ha : emailMissing a <;> cases hb : emailMissing b <;> simp [ha, hb] <;>
    exact le_total _ _

/-- The sort key comparison is transitive. -/
theorem resultKeyLe_trans (a b c : ResultRecord)
    (h1 : resultKeyLe a b) (h2 : resultKeyLe b c) : resultKeyLe a c := by
  simp only [resultKeyLe] at h1 h2 ⊢
  cases ha : emailMissing a <;> cases hb : emailMissing b <;>
    cases hc : emailMissing c <;> simp_all <;> exact le_trans h1 h2

/-- C4: `process_csv` permutes the records built in input order, and in the
output every record with a nonempty primary email precedes every record
with an empty one, within each of the two groups the business names are in
nondecreasing order, and the sort is stable (any key-ordered input pair
keeps its relative order). -/
theorem C4_sorted_output (fetch : String → Option String) (rows : List BusinessRow) :
    (process_csv fetch rows).Perm (rows.map (processBusiness fetch)) ∧
    (process_csv fetch rows).Pairwise (fun a b =>
      (a.primaryEmail = "" → b.primaryEmail = "") ∧
      ((a.primaryEmail = "" ↔ b.primaryEmail = "") →
        a.businessName ≤ b.businessName)) ∧
    (∀ a b : ResultRecord, resultKeyLe a b = true →
      [a, b].Sublist (rows.map (processBusiness fetch)) →
      [a, b].Sublist (process_csv fetch rows)) := by
  refine ⟨List.mergeSort_perm _ _, ?_, ?_⟩
  · refine List.Pairwise.imp ?_
      (List.sorted_mergeSort resultKeyLe_trans resultKeyLe_total
        (rows.map (processBusiness fetch)))
    intro a b hab
    constructor
    · intro hae
      have ha : emailMissing a = true := by simp [emailMissing, hae]
      simp only [resultKeyLe, ha] at hab
      simp only [Bool.not_true, Bool.false_and, Bool.false_or,
        Bool.and_eq_true, beq_iff_eq] at hab
      have hb : emailMissing b = true := hab.1.symm
      simpa [emailMissing] using hb
    · intro hiff
      by_cases hae : a.primaryEmail = ""
      · have hbe : b.primaryEmail = "" := hiff.mp hae
        simpa [resultKeyLe, emailMissing, hae, hbe] using hab
      · have hbe : ¬b.primaryEmail = "" := fun h => hae (hiff.mpr h)
        simpa [resultKeyLe, emailMissing, hae, hbe] using hab
  · intro a b h1 h2
    exact List.pair_sublist_mergeSort resultKeyLe_trans resultKeyLe_total h1 h2

/-- Witness for C4 at a concrete input: the emailless record sorts after
the one with an email regardless of input order. -/
theorem C4_sorted_output_witness :
    (process_csv (fun _ => some "mail z@q.io")
        [⟨"B", "bad url!"⟩, ⟨"A", "e.com"⟩]).Perm
      ([⟨"B", "bad url!"⟩, ⟨"A", "e.com"⟩].map
        (processBusiness (fun _ => some "mail z@q.io"))) :=
  (C4_sorted_output (fun _ => some "mail z@q.io")
    [⟨"B", "bad url!"⟩, ⟨"A", "e.com"⟩]).1
